import Mathlib

/-!
Verification of the telegram-bridge relay core against its specification.

The development shallowly embeds the JavaScript sources:
- `Bridge` (delayed delivery queue, dedup/tombstone sets, timers) from the
  bridge orchestrator file;
- `MessageProcessor.process` (content formatter) from `src/messageProcessor.js`;
- `GoogleTranslator` (script segmentation and passthrough) and
  `CompositeTranslator` (primary/fallback failover) from the translator files;
- `TelegramClient.checkMessageExists` from the telegram client file.

Timers are modelled explicitly: `setTimeout` allocates a fresh identifier and
adds the timer (with the callback payload it closed over) to a list of live
timers; `clearTimeout` removes it; a timer may fire only while it is live.
Network interactions (existence check, send, translation HTTP calls) are
modelled as oracle parameters describing every outcome the JavaScript `await`
could observe.
-/

namespace TelegramBridge

/-- A JavaScript `Error`-like value: a `message` and (for Telegram API errors)
a `description` field. -/
structure JsError where
  message : String
  description : String
deriving DecidableEq

/-- Outcome of one `telegramClient.sendMessage` call: resolves with the sent
message id, or rejects with an error. -/
inductive SendOutcome where
  | ok (messageId : Int)
  | err (e : JsError)
deriving DecidableEq

/-- Outcome of one `telegramClient.checkMessageExists` call: resolves with a
boolean, or throws. -/
inductive ExistsOutcome where
  | ret (b : Bool)
  | threw (e : JsError)
deriving DecidableEq

/-- One send attempt recorded by the model: the relay key it was for, the text,
whether the `parse_mode: 'Markdown'` option was passed, and whether the
transport accepted it. -/
structure SendRec where
  key : String
  text : String
  markdown : Bool
  success : Bool
deriving DecidableEq

/-- State of a `Bridge` instance.  `processedMessageIds` and
`deletedMessageIds` model the JavaScript insertion-ordered `Set` objects as
lists without duplicates (oldest first); `pendingMessages` models the `Map`
from message key to the timeout handle stored for it; `liveTimers` holds every
scheduled, not-yet-fired, not-yet-cleared timer together with the key and
formatted text its callback closed over; `sends` is the log of send attempts. -/
structure BridgeState where
  processedMessageIds : List String
  pendingMessages : List (String × Nat)
  deletedMessageIds : List String
  liveTimers : List (Nat × String × String)
  nextTimer : Nat
  sends : List SendRec
deriving DecidableEq

/-- `Set.add`: JavaScript sets keep insertion order and ignore re-adds. -/
def addSet (l : List String) (k : String) : List String :=
  if k ∈ l then l else l ++ [k]

/-- `Map.get`: first (and only) binding for `k`. -/
def mapGet (m : List (String × Nat)) (k : String) : Option Nat :=
  (m.find? (fun p => p.1 == k)).map (fun p => p.2)

/-- `Map.set`: replace in place when the key is bound, append otherwise. -/
def mapSet (m : List (String × Nat)) (k : String) (v : Nat) : List (String × Nat) :=
  if m.any (fun p => p.1 == k) then
    m.map (fun p => if p.1 == k then (k, v) else p)
  else m ++ [(k, v)]

/-- `Map.delete`. -/
def mapDelete (m : List (String × Nat)) (k : String) : List (String × Nat) :=
  m.filter (fun p => p.1 != k)

/-- `clearTimeout`: remove a timer from the live set (no-op when it already
fired or was already cleared). -/
def clearTimer (ts : List (Nat × String × String)) (id : Nat) :
    List (Nat × String × String) :=
  ts.filter (fun t => t.1 != id)

/-- `Array.from(set).slice(-n)` guarded by `size > n`: keep the `n`
most-recently-inserted entries when the bound is exceeded. -/
def trimTo (n : Nat) (l : List String) : List String :=
  if n < l.length then l.drop (l.length - n) else l

/-- `Bridge.markMessageAsDeleted`: record the tombstone, and, when a pending
delivery exists for the key, clear its timer and drop the pending entry.
(The source adds the tombstone before consulting the pending map; the two
updates are independent, so they are stated as one case split.) -/
def markMessageAsDeleted (s : BridgeState) (key : String) : BridgeState :=
  match mapGet s.pendingMessages key with
  | some tid =>
      { s with
        deletedMessageIds := addSet s.deletedMessageIds key
        liveTimers := clearTimer s.liveTimers tid
        pendingMessages := mapDelete s.pendingMessages key }
  | none => { s with deletedMessageIds := addSet s.deletedMessageIds key }

/-- `Bridge.queueMessage`: schedule a timer for the key and store the pending
entry.  Note the source calls `pendingMessages.set` without clearing the timer
of an entry it replaces. -/
def queueMessage (s : BridgeState) (key ft : String) : BridgeState :=
  { s with
    liveTimers := s.liveTimers ++ [(s.nextTimer, key, ft)]
    nextTimer := s.nextTimer + 1
    pendingMessages := mapSet s.pendingMessages key s.nextTimer }

/-- The dedup-and-enqueue tail of `Bridge.handleUpdate` for an event that
passed normalization and `shouldProcess`: skip when the key was already
processed, otherwise queue it. -/
def handleAdmitted (s : BridgeState) (key ft : String) : BridgeState :=
  if key ∈ s.processedMessageIds then s else queueMessage s key ft

/-- `String.prototype.includes`, on character lists: `need` occurs contiguously
in the second argument. -/
def containsSub (need : List Char) : List Char → Bool
  | [] => need.isEmpty
  | c :: t => need.isPrefixOf (c :: t) || containsSub need t

/-- The success continuation of the timer callback in `Bridge.queueMessage`
(after `sendMessage` resolved): mark processed, drop the pending entry, and
trim both bounded sets to their most recent 1000 entries. -/
def finishSuccess (s : BridgeState) (key : String) : BridgeState :=
  let s1 := { s with
    processedMessageIds := addSet s.processedMessageIds key
    pendingMessages := mapDelete s.pendingMessages key }
  let s2 := { s1 with processedMessageIds := trimTo 1000 s1.processedMessageIds }
  { s2 with deletedMessageIds := trimTo 1000 s2.deletedMessageIds }

/-- The send portion of the timer callback in `Bridge.queueMessage`: attempt
the Markdown send; on a failure whose message contains `parse`, retry once as
plain text; on success run the success continuation; any other failure (or a
failed retry) lands in the outer catch, which only drops the pending entry. -/
def sendPhase (s : BridgeState) (key ft : String) (md pl : SendOutcome) :
    BridgeState :=
  match md with
  | .ok _ =>
      finishSuccess { s with sends := s.sends ++ [⟨key, ft, true, true⟩] } key
  | .err e =>
      if containsSub "parse".data e.message.data then
        match pl with
        | .ok _ =>
            finishSuccess
              { s with sends := s.sends ++ [⟨key, ft, true, false⟩, ⟨key, ft, false, true⟩] } key
        | .err _ =>
            { s with
              sends := s.sends ++ [⟨key, ft, true, false⟩, ⟨key, ft, false, false⟩]
              pendingMessages := mapDelete s.pendingMessages key }
      else
        { s with
          sends := s.sends ++ [⟨key, ft, true, false⟩]
          pendingMessages := mapDelete s.pendingMessages key }

/-- Body of the timer callback in `Bridge.queueMessage`, for a timer that
closed over `key` and `ft`: skip tombstoned keys, handle the existence check
(`exq`; a `false` return tombstones and cancels, an error is fail-open), then
run the send phase with outcomes `md` and `pl`. -/
def fireBody (s : BridgeState) (key ft : String) (exq : ExistsOutcome)
    (md pl : SendOutcome) : BridgeState :=
  if key ∈ s.deletedMessageIds then
    { s with pendingMessages := mapDelete s.pendingMessages key }
  else
    match exq with
    | .ret false => markMessageAsDeleted s key
    | _ => sendPhase s key ft md pl

/-- Fire the live timer with identifier `id`: remove it from the live set and
run its callback.  A timer that is not live cannot fire. -/
def fireTimer (s : BridgeState) (id : Nat) (exq : ExistsOutcome)
    (md pl : SendOutcome) : BridgeState :=
  match s.liveTimers.find? (fun t => t.1 == id) with
  | none => s
  | some (_, key, ft) =>
      fireBody { s with liveTimers := clearTimer s.liveTimers id } key ft exq md pl

/-- Externally observable operations on a `Bridge`: an admitted source event
arriving, a retraction signal, and a live timer firing with given oracle
outcomes. -/
inductive Op where
  | arrive (key ft : String)
  | retract (key : String)
  | fire (id : Nat) (exq : ExistsOutcome) (md pl : SendOutcome)
deriving DecidableEq

/-- One step of the bridge. -/
def step (s : BridgeState) : Op → BridgeState
  | .arrive key ft => handleAdmitted s key ft
  | .retract key => markMessageAsDeleted s key
  | .fire id exq md pl => fireTimer s id exq md pl

/-- Run a sequence of operations. -/
def run (s : BridgeState) (ops : List Op) : BridgeState :=
  ops.foldl step s

/-- The state of a freshly constructed `Bridge`. -/
def initState : BridgeState :=
  { processedMessageIds := []
    pendingMessages := []
    deletedMessageIds := []
    liveTimers := []
    nextTimer := 0
    sends := [] }

/-- Send attempts recorded for one relay key. -/
def sendsFor (k : String) (l : List SendRec) : List SendRec :=
  l.filter (fun r => r.key == k)

/-! ## Translation backends -/

/-- `GoogleTranslator.containsChinese`'s character test: the three CJK ranges
of the regex `[一-鿿㐀-䶿豈-﫿]`. -/
def isChineseChar (c : Char) : Bool :=
  (0x4e00 ≤ c.toNat && c.toNat ≤ 0x9fff) ||
  (0x3400 ≤ c.toNat && c.toNat ≤ 0x4dbf) ||
  (0xf900 ≤ c.toNat && c.toNat ≤ 0xfaff)

/-- `GoogleTranslator.containsChinese`. -/
def containsChinese (t : List Char) : Bool := t.any isChineseChar

/-- One `{text, isChinese}` entry produced by
`GoogleTranslator.splitIntoSegments`. -/
structure Segment where
  text : List Char
  isChinese : Bool
deriving DecidableEq

/-- The loop of `GoogleTranslator.splitIntoSegments` once the first character
seeded `currentSegment`/`currentIsChinese`: extend the current run while the
script class is unchanged, otherwise emit it and start a new run. -/
def splitGo : List Char → List Char → Bool → List Segment
  | [], cur, b => [⟨cur, b⟩]
  | c :: rest, cur, b =>
    if isChineseChar c = b then splitGo rest (cur ++ [c]) b
    else ⟨cur, b⟩ :: splitGo rest [c] (isChineseChar c)

/-- `GoogleTranslator.splitIntoSegments`. -/
def splitIntoSegments : List Char → List Segment
  | [] => []
  | c :: rest => splitGo rest [c] (isChineseChar c)

/-- The JavaScript `String.prototype.trim` whitespace class (WhiteSpace and
LineTerminator code points). -/
def isJsWhitespace (c : Char) : Bool :=
  c.toNat ∈ [0x9, 0xA, 0xB, 0xC, 0xD, 0x20, 0xA0, 0x1680,
    0x2000, 0x2001, 0x2002, 0x2003, 0x2004, 0x2005, 0x2006, 0x2007,
    0x2008, 0x2009, 0x200A, 0x2028, 0x2029, 0x202F, 0x205F, 0x3000, 0xFEFF]

/-- `text.trim()` on character lists. -/
def jsTrim (t : List Char) : List Char :=
  ((t.dropWhile isJsWhitespace).reverse.dropWhile isJsWhitespace).reverse

/-- The segment loop of `GoogleTranslator.translate`: translate Chinese
segments through `tc` (the `translateChunk` HTTP call, which may reject),
pass other segments through, and `join('')` the results.  The first rejection
propagates out of the enclosing `async` function. -/
def translateSegs (tc : List Char → Except String (List Char)) :
    List Segment → Except String (List Char)
  | [] => .ok []
  | seg :: rest => do
    let h ← if seg.isChinese then tc seg.text else .ok seg.text
    let t ← translateSegs tc rest
    .ok (h ++ t)

/-- `GoogleTranslator.translate`, with the `translateChunk` network call as an
oracle.  `hasApiKey` models `this.apiKey` being set. -/
def googleTranslate (hasApiKey : Bool)
    (translateChunk : List Char → Except String (List Char))
    (text : List Char) : Except String (List Char) :=
  if !hasApiKey then .error "GOOGLE_TRANSLATE_API_KEY is not set"
  else if (jsTrim text).isEmpty then .ok text
  else if !containsChinese text then .ok text
  else do
    let out ← translateSegs translateChunk (splitIntoSegments text)
    .ok out

/-- A translator backend: `translate(text, sourceLang, targetLang)` resolving
to the translated text or rejecting. -/
def TransFn : Type :=
  String → String → String → Except String String

/-- `CompositeTranslator.translate`: try the primary, on failure try the
fallback when configured, otherwise propagate the primary's error. -/
def compositeTranslate (primary fallback : Option TransFn)
    (text src tgt : String) : Except String String :=
  match primary with
  | none => .error "No primary translator configured"
  | some p =>
    match p text src tgt with
    | .ok r => .ok r
    | .error e1 =>
      match fallback with
      | some f =>
        match f text src tgt with
        | .ok r => .ok r
        | .error e2 => .error e2
      | none => .error e1

/-! ## Content formatter -/

/-- The configuration fields consulted by `MessageProcessor.process`. -/
structure ProcConfig where
  translationEnabled : Bool
  showOriginal : Bool
  sourceLang : String
  targetLang : String

/-- A normalized `BridgeMessage` as built by `Bridge.normalizeMessage`. -/
structure BridgeMessage where
  id : Int
  chatId : String
  author : String
  text : String
  replyToId : Option Int
  timestamp : Int

/-- `MessageProcessor.process`.  `author || 'Unknown'` falls back on the empty
string; the translate call is attempted only when translation is enabled and a
translator was supplied, and its rejection falls back on the source text;
`if (replyToId)` is JavaScript truthiness, so a `null` or zero reply id adds
no prefix. -/
def process (cfg : ProcConfig) (translator : Option TransFn)
    (m : BridgeMessage) : String :=
  let authorDisplay := if m.author = "" then "Unknown" else m.author
  let outputText :=
    match cfg.translationEnabled, translator with
    | true, some tr =>
      match tr m.text cfg.sourceLang cfg.targetLang with
      | .ok t => t
      | .error _ => m.text
    | _, _ => m.text
  let f1 := "[From CN] " ++ authorDisplay ++ ": " ++ outputText
  let f2 :=
    if cfg.showOriginal && cfg.translationEnabled then f1 ++ "\nOriginal: " ++ m.text
    else f1
  match m.replyToId with
  | some r => if r = 0 then f2 else "Replying to message " ++ toString r ++ "\n" ++ f2
  | none => f2

/-! ## Telegram client existence check -/

/-- ASCII case folding, enough for `toLowerCase()` over the API error strings
compared against the all-ASCII patterns. -/
def asciiLowerChar (c : Char) : Char :=
  if 'A' ≤ c ∧ c ≤ 'Z' then Char.ofNat (c.toNat + 32) else c

/-- Lowercase a character list. -/
def asciiLower (s : List Char) : List Char := s.map asciiLowerChar

/-- The not-found test of `TelegramClient.checkMessageExists`: lowercase
`message + ' ' + description` and look for the four deletion patterns. -/
def notFoundError (e : JsError) : Bool :=
  let full := asciiLower ((e.message ++ " " ++ e.description).data)
  containsSub "message to forward not found".data full ||
  containsSub "message not found".data full ||
  containsSub "bad request: message to forward not found".data full ||
  containsSub "message_id_invalid".data full

/-- `TelegramClient.checkMessageExists`, with the test forward and the cleanup
delete as oracles.  `botReady` models `this.bot` being set; when it is not,
the method throws before any network call.  A successful forward returns
`true` whatever the cleanup delete does; a failed forward returns `false`
exactly on the not-found patterns and `true` on any other error. -/
def checkMessageExists (botReady : Bool)
    (forwardResult : Except JsError Int)
    (deleteResult : Except JsError Unit) : Except String Bool :=
  if !botReady then .error "Bot not initialized"
  else
    match forwardResult with
    | .ok _ =>
      match deleteResult with
      | .ok _ => .ok true
      | .error _ => .ok true
    | .error e => if notFoundError e then .ok false else .ok true

/-! ## Theorems -/

/-- C1: The spec requires that enqueueing a key that already has a
PendingDelivery replace the old entry's timer (at most one live timer per
key), so that the same event arriving twice within the delay window yields
exactly one delivery.  The code violates this: `queueMessage` replaces the
map entry but never calls `clearTimeout` on the replaced entry's timer, and
the `handleUpdate` dedup check consults `processedMessageIds`, which only
gains the key after a successful send.  Evaluating the model on a duplicate
arrival: after the second `arrive` there are two live timers for the key
(while the pending map holds the single replaced entry), and both timers fire
and deliver, so the same event is sent twice. -/
theorem duplicate_enqueue_double_delivery :
    (run initState [.arrive "c:5" "T", .arrive "c:5" "T"]).liveTimers =
      [(0, "c:5", "T"), (1, "c:5", "T")] ∧
    (run initState [.arrive "c:5" "T", .arrive "c:5" "T"]).pendingMessages = [("c:5", 1)] ∧
    (run initState [.arrive "c:5" "T", .arrive "c:5" "T",
        .fire 0 (.ret true) (.ok 1) (.ok 1), .fire 1 (.ret true) (.ok 2) (.ok 2)]).sends =
      [⟨"c:5", "T", true, true⟩, ⟨"c:5", "T", true, true⟩] := by
  refine ⟨rfl, rfl, rfl⟩

/-- C5: an existence check that throws is treated exactly like one that
returned `true` (fail-open): the resulting bridge state — deliveries,
tombstones, pending entries — is identical, so the error never causes the
message to be skipped, tombstoned, or treated as retracted. -/
theorem fire_exists_error_fail_open (s : BridgeState) (id : Nat) (e : JsError)
    (md pl : SendOutcome) :
    fireTimer s id (.threw e) md pl = fireTimer s id (.ret true) md pl := by
  unfold fireTimer
  cases hf : s.liveTimers.find? (fun t => t.1 == id) with
  | none => rfl
  | some t =>
    obtain ⟨tid, key, ft⟩ := t
    unfold fireBody
    split <;> rfl

/-- C7: `CompositeTranslator.translate` with a configured primary returns the
primary's success unchanged; on primary failure it returns the fallback's
result when a fallback is configured and propagates the primary's error
otherwise; and it fails exactly when the primary fails and the fallback is
absent or also fails. -/
theorem composite_failover (p : TransFn) (fb : Option TransFn)
    (text src tgt : String) :
    (∀ r, p text src tgt = .ok r →
        compositeTranslate (some p) fb text src tgt = .ok r) ∧
    (∀ e1, p text src tgt = .error e1 → fb = none →
        compositeTranslate (some p) fb text src tgt = .error e1) ∧
    (∀ e1 f, p text src tgt = .error e1 → fb = some f →
        compositeTranslate (some p) fb text src tgt = f text src tgt) ∧
    ((∃ e, compositeTranslate (some p) fb text src tgt = .error e) ↔
      ((∃ e1, p text src tgt = .error e1) ∧
        ∀ f, fb = some f → ∃ e2, f text src tgt = .error e2)) := by
  refine ⟨?_, ?_, ?_, ?_⟩
  · intro r hr
    simp [compositeTranslate, hr]
  · intro e1 h1 h2
    subst h2
    simp [compositeTranslate, h1]
  · intro e1 f h1 h2
    subst h2
    cases hf : f text src tgt <;> simp [compositeTranslate, h1, hf]
  · cases hp : p text src tgt with
    | ok r => simp [compositeTranslate, hp]
    | error e1 =>
      cases fb with
      | none => simp [compositeTranslate, hp]
      | some f =>
        cases hf : f text src tgt <;> simp [compositeTranslate, hp, hf]

/-- Witness for C7: a failing primary with a succeeding fallback yields the
fallback's translation. -/
theorem composite_failover_witness :
    compositeTranslate (some (fun _ _ _ => .error "primary down"))
      (some (fun _ _ _ => .ok "hello")) "你好" "zh" "en" = .ok "hello" :=
  (composite_failover (fun _ _ _ => .error "primary down")
      (some (fun _ _ _ => .ok "hello")) "你好" "zh" "en").2.2.1
    "primary down" (fun _ _ _ => .ok "hello") rfl rfl

/-- C8: when translation is enabled and the translator's `translate` call
rejects, `MessageProcessor.process` formats the untranslated source text —
its output is exactly the output of the pipeline with no translator — and the
formatting step completes normally, so a translation failure never prevents
the event from being relayed. -/
theorem process_translation_failure_fallback (cfg : ProcConfig) (tr : TransFn)
    (m : BridgeMessage) (e : String)
    (h1 : cfg.translationEnabled = true)
    (h2 : tr m.text cfg.sourceLang cfg.targetLang = .error e) :
    process cfg (some tr) m = process cfg none m := by
  simp [process, h1, h2]

/-- Witness for C8 at a concrete configuration, translator and event. -/
theorem process_translation_failure_fallback_witness :
    process ⟨true, true, "zh", "en"⟩ (some (fun _ _ _ => .error "boom"))
        ⟨5, "-100", "Bob", "你好", some 7, 0⟩ =
      process ⟨true, true, "zh", "en"⟩ none ⟨5, "-100", "Bob", "你好", some 7, 0⟩ :=
  process_translation_failure_fallback ⟨true, true, "zh", "en"⟩
    (fun _ _ _ => .error "boom") ⟨5, "-100", "Bob", "你好", some 7, 0⟩ "boom" rfl rfl

/-- C10: for an initialized client, `checkMessageExists` never raises: it
resolves with `false` exactly when the test forward rejected with an error
whose lowercased `message + ' ' + description` contains one of the code's
not-found patterns (`message to forward not found`, `message not found`,
`bad request: message to forward not found`, `message_id_invalid`), and
resolves with `true` in every other case — including when the forward
succeeded but deleting the forwarded test copy failed, and when the forward
failed with any other error. -/
theorem checkMessageExists_spec (botReady : Bool) (fwd : Except JsError Int)
    (del : Except JsError Unit) (h : botReady = true) :
    (∃ b, checkMessageExists botReady fwd del = .ok b) ∧
    (checkMessageExists botReady fwd del = .ok false ↔
      ∃ e, fwd = .error e ∧ notFoundError e = true) ∧
    (∀ mid, fwd = .ok mid → checkMessageExists botReady fwd del = .ok true) ∧
    (∀ e, fwd = .error e → notFoundError e = false →
      checkMessageExists botReady fwd del = .ok true) := by
  subst h
  cases fwd with
  | ok mid => cases del <;> simp [checkMessageExists]
  | error e =>
    by_cases hnf : notFoundError e = true
    · simp [checkMessageExists, hnf]
    · simp [checkMessageExists, hnf]

/-- Witness for C10: a forward rejected with Telegram's deleted-message error
makes the check return `false`. -/
theorem checkMessageExists_spec_witness :
    checkMessageExists true
        (.error ⟨"400: Bad Request: message to forward not found", ""⟩)
        (.ok ()) = .ok false :=
  ((checkMessageExists_spec true
      (.error ⟨"400: Bad Request: message to forward not found", ""⟩)
      (.ok ()) rfl).2.1).mpr ⟨_, rfl, by decide⟩

/-- C9: `MessageProcessor.process` returns
`<reply-prefix> ++ "[From CN] <author>: <output-text>" ++ <original-suffix>`,
where the `Original:` line is appended iff translation is enabled and the
show-original option is set, and the `Replying to message <id>` line is
prepended iff the event carries a (JavaScript-truthy, i.e. nonzero) reply
reference.  `process` is a pure function of the event, so the input event is
not mutated. -/
theorem process_format_shape (cfg : ProcConfig) (translator : Option TransFn)
    (m : BridgeMessage) :
    process cfg translator m =
      (match m.replyToId with
        | some r => if r = 0 then "" else "Replying to message " ++ toString r ++ "\n"
        | none => "") ++
      ("[From CN] " ++ (if m.author = "" then "Unknown" else m.author) ++ ": " ++
        (match cfg.translationEnabled, translator with
          | true, some tr =>
            match tr m.text cfg.sourceLang cfg.targetLang with
            | .ok t => t
            | .error _ => m.text
          | _, _ => m.text)) ++
      (if cfg.translationEnabled && cfg.showOriginal then "\nOriginal: " ++ m.text
        else "") := by
  unfold process
  rw [Bool.and_comm cfg.translationEnabled cfg.showOriginal]
  cases m.replyToId with
  | none =>
    cases hso : cfg.showOriginal && cfg.translationEnabled <;>
      simp [String.empty_append, String.append_empty, String.append_assoc]
  | some r =>
    by_cases hr : r = 0 <;>
      cases hso : cfg.showOriginal && cfg.translationEnabled <;>
        simp [hr, String.empty_append, String.append_empty, String.append_assoc]

/-- Deleting a key from the pending map removes its binding. -/
theorem mapGet_mapDelete (m : List (String × Nat)) (k : String) :
    mapGet (mapDelete m k) k = none := by
  induction m with
  | nil => rfl
  | cons p t ih =>
    simp only [mapDelete] at ih ⊢
    rw [List.filter_cons]
    by_cases h : p.1 = k
    · simp [h, ih]
    · simp [mapGet, List.find?_cons, h, ih]

/-- C4: at fire time (key not tombstoned, existence check not returning
`false`), a send that fails with a parse error is retried exactly once, as
plain text: the log gains the failed Markdown attempt and one plain attempt
with the retry's outcome.  When the retry also fails, and when the first send
fails with a non-parse error (then: exactly one attempt, no retry), the key is
not added to `processedMessageIds` and the pending entry is removed. -/
theorem fire_send_failure_handling (s : BridgeState) (id : Nat) (key ft : String)
    (exq : ExistsOutcome)
    (hfind : s.liveTimers.find? (fun t => t.1 == id) = some (id, key, ft))
    (hnd : key ∉ s.deletedMessageIds)
    (hex : exq ≠ .ret false) :
    (∀ e pl, containsSub "parse".data e.message.data = true →
      (fireTimer s id exq (.err e) pl).sends =
        s.sends ++ [⟨key, ft, true, false⟩,
          ⟨key, ft, false, match pl with | .ok _ => true | .err _ => false⟩]) ∧
    (∀ e e2, containsSub "parse".data e.message.data = true →
      (fireTimer s id exq (.err e) (.err e2)).processedMessageIds =
          s.processedMessageIds ∧
        mapGet (fireTimer s id exq (.err e) (.err e2)).pendingMessages key = none) ∧
    (∀ e pl, containsSub "parse".data e.message.data = false →
      (fireTimer s id exq (.err e) pl).sends = s.sends ++ [⟨key, ft, true, false⟩] ∧
        (fireTimer s id exq (.err e) pl).processedMessageIds = s.processedMessageIds ∧
        mapGet (fireTimer s id exq (.err e) pl).pendingMessages key = none) := by
  refine ⟨?_, ?_, ?_⟩
  · intro e pl hpe
    cases exq with
    | ret b =>
      cases b with
      | false => exact absurd rfl hex
      | true => cases pl <;> simp [fireTimer, hfind, fireBody, sendPhase, finishSuccess, hnd, hpe]
    | threw e0 => cases pl <;> simp [fireTimer, hfind, fireBody, sendPhase, finishSuccess, hnd, hpe]
  · intro e e2 hpe
    cases exq with
    | ret b =>
      cases b with
      | false => exact absurd rfl hex
      | true => simp [fireTimer, hfind, fireBody, sendPhase, hnd, hpe, mapGet_mapDelete]
    | threw e0 => simp [fireTimer, hfind, fireBody, sendPhase, hnd, hpe, mapGet_mapDelete]
  · intro e pl hpe
    cases exq with
    | ret b =>
      cases b with
      | false => exact absurd rfl hex
      | true => simp [fireTimer, hfind, fireBody, sendPhase, hnd, hpe, mapGet_mapDelete]
    | threw e0 => simp [fireTimer, hfind, fireBody, sendPhase, hnd, hpe, mapGet_mapDelete]

/-- Witness for C4: a parse failure followed by a failed plain retry leaves
exactly the two failed attempts in the log. -/
theorem fire_send_failure_handling_witness :
    (fireTimer (run initState [.arrive "c:7" "T"]) 0 (.ret true)
        (.err ⟨"Bad Request: can't parse entities", ""⟩)
        (.err ⟨"Bad Request: can't parse entities", ""⟩)).sends =
      [⟨"c:7", "T", true, false⟩, ⟨"c:7", "T", false, false⟩] :=
  (fire_send_failure_handling (run initState [.arrive "c:7" "T"]) 0 "c:7" "T"
      (.ret true) (by decide) (by decide) (by decide)).1
    ⟨"Bad Request: can't parse entities", ""⟩
    (.err ⟨"Bad Request: can't parse entities", ""⟩) (by decide)

/-! ### Retraction before fire (C2) -/

/-- No live timer's callback is for key `k`. -/
def noLiveTimerFor (s : BridgeState) (k : String) : Prop :=
  ∀ t ∈ s.liveTimers, t.2.1 ≠ k

/-- Every live timer for `k` is the one recorded in the pending map — the
situation after `k` was enqueued at most once and its timer has not fired. -/
def onlyPendingTimerFor (s : BridgeState) (k : String) : Prop :=
  ∀ t ∈ s.liveTimers, t.2.1 = k → mapGet s.pendingMessages k = some t.1

/-- `markMessageAsDeleted` performs no send. -/
theorem markMessageAsDeleted_sends (s : BridgeState) (k : String) :
    (markMessageAsDeleted s k).sends = s.sends := by
  unfold markMessageAsDeleted
  split <;> rfl

/-- `markMessageAsDeleted` only removes live timers. -/
theorem markMessageAsDeleted_live_sub (s : BridgeState) (k : String) :
    ∀ t ∈ (markMessageAsDeleted s k).liveTimers, t ∈ s.liveTimers := by
  unfold markMessageAsDeleted
  split
  · intro t ht
    exact List.mem_of_mem_filter ht
  · intro t ht
    exact ht

/-- The success continuation leaves the send log alone (attempts are logged
before it runs). -/
theorem finishSuccess_sends (s : BridgeState) (k : String) :
    (finishSuccess s k).sends = s.sends := rfl

/-- The success continuation leaves the live timers alone. -/
theorem finishSuccess_live (s : BridgeState) (k : String) :
    (finishSuccess s k).liveTimers = s.liveTimers := rfl

/-- Appending attempts for a different key adds nothing to `sendsFor k`. -/
theorem sendsFor_append_ne (k key : String) (l recs : List SendRec)
    (h : sendsFor k l = []) (hrecs : ∀ r ∈ recs, r.key = key) (hk : key ≠ k) :
    sendsFor k (l ++ recs) = [] := by
  unfold sendsFor at h ⊢
  rw [List.filter_append, h, List.nil_append, List.filter_eq_nil_iff]
  intro r hr
  rw [hrecs r hr]
  simp [hk]

/-- The send phase neither creates a timer for another key nor sends for it. -/
theorem sendPhase_preserves (s : BridgeState) (key ft k : String)
    (md pl : SendOutcome) (hk : key ≠ k)
    (h : noLiveTimerFor s k) (hs : sendsFor k s.sends = []) :
    noLiveTimerFor (sendPhase s key ft md pl) k ∧
      sendsFor k (sendPhase s key ft md pl).sends = [] := by
  have hone : ∀ a b : Bool, ∀ r ∈ [(⟨key, ft, a, b⟩ : SendRec)], r.key = key := by
    intro a b r hr
    rw [List.mem_singleton] at hr
    subst hr
    rfl
  have htwo : ∀ a b c d : Bool,
      ∀ r ∈ [(⟨key, ft, a, b⟩ : SendRec), ⟨key, ft, c, d⟩], r.key = key := by
    intro a b c d r hr
    rw [List.mem_cons, List.mem_singleton] at hr
    rcases hr with hr | hr <;> subst hr <;> rfl
  cases md with
  | ok mid =>
    refine ⟨h, ?_⟩
    show sendsFor k (s.sends ++ [⟨key, ft, true, true⟩]) = []
    exact sendsFor_append_ne k key _ _ hs (hone true true) hk
  | err e =>
    simp only [sendPhase]
    by_cases hp : containsSub "parse".data e.message.data = true
    · rw [if_pos hp]
      cases pl with
      | ok mid =>
        refine ⟨h, ?_⟩
        show sendsFor k (s.sends ++ [⟨key, ft, true, false⟩, ⟨key, ft, false, true⟩]) = []
        exact sendsFor_append_ne k key _ _ hs (htwo true false false true) hk
      | err e2 =>
        refine ⟨h, ?_⟩
        show sendsFor k (s.sends ++ [⟨key, ft, true, false⟩, ⟨key, ft, false, false⟩]) = []
        exact sendsFor_append_ne k key _ _ hs (htwo true false false false) hk
    · rw [if_neg hp]
      refine ⟨h, ?_⟩
      show sendsFor k (s.sends ++ [⟨key, ft, true, false⟩]) = []
      exact sendsFor_append_ne k key _ _ hs (hone true false) hk

/-- The timer callback neither creates a timer for another key nor sends for
it. -/
theorem fireBody_preserves (s : BridgeState) (key ft k : String)
    (exq : ExistsOutcome) (md pl : SendOutcome) (hk : key ≠ k)
    (h : noLiveTimerFor s k) (hs : sendsFor k s.sends = []) :
    noLiveTimerFor (fireBody s key ft exq md pl) k ∧
      sendsFor k (fireBody s key ft exq md pl).sends = [] := by
  unfold fireBody
  by_cases hdel : key ∈ s.deletedMessageIds
  · rw [if_pos hdel]
    exact ⟨h, hs⟩
  · rw [if_neg hdel]
    have hmk : noLiveTimerFor (markMessageAsDeleted s key) k ∧
        sendsFor k (markMessageAsDeleted s key).sends = [] := by
      refine ⟨?_, ?_⟩
      · intro t ht
        exact h t (markMessageAsDeleted_live_sub s key t ht)
      · rw [markMessageAsDeleted_sends]
        exact hs
    cases exq with
    | ret b =>
      cases b with
      | false => exact hmk
      | true => exact sendPhase_preserves s key ft k md pl hk h hs
    | threw e0 => exact sendPhase_preserves s key ft k md pl hk h hs

/-- Any operation other than an arrival of `k` preserves "no live timer for
`k` and no logged send for `k`". -/
theorem step_preserves_noK (s : BridgeState) (k : String) (op : Op)
    (h : noLiveTimerFor s k) (hs : sendsFor k s.sends = [])
    (hop : ∀ ft, op ≠ .arrive k ft) :
    noLiveTimerFor (step s op) k ∧ sendsFor k (step s op).sends = [] := by
  cases op with
  | arrive key ft =>
    have hk : key ≠ k := by
      intro hkk
      exact (hop ft) (by rw [hkk])
    show noLiveTimerFor (handleAdmitted s key ft) k ∧
      sendsFor k (handleAdmitted s key ft).sends = []
    unfold handleAdmitted
    by_cases hpr : key ∈ s.processedMessageIds
    · rw [if_pos hpr]
      exact ⟨h, hs⟩
    · rw [if_neg hpr]
      refine ⟨?_, hs⟩
      intro t ht
      simp only [queueMessage, List.mem_append, List.mem_singleton] at ht
      rcases ht with ht | ht
      · exact h t ht
      · subst ht
        exact hk
  | retract key =>
    refine ⟨?_, ?_⟩
    · intro t ht
      exact h t (markMessageAsDeleted_live_sub s key t ht)
    · show sendsFor k (markMessageAsDeleted s key).sends = []
      rw [markMessageAsDeleted_sends]
      exact hs
  | fire id exq md pl =>
    show noLiveTimerFor (fireTimer s id exq md pl) k ∧
      sendsFor k (fireTimer s id exq md pl).sends = []
    unfold fireTimer
    cases hf : s.liveTimers.find? (fun t => t.1 == id) with
    | none => exact ⟨h, hs⟩
    | some t =>
      obtain ⟨tid, key, ft⟩ := t
      have hmem : (tid, key, ft) ∈ s.liveTimers := List.mem_of_find?_eq_some hf
      have hk : key ≠ k := h _ hmem
      refine fireBody_preserves _ key ft k exq md pl hk ?_ hs
      intro t ht
      exact h t (List.mem_of_mem_filter ht)

/-- Running any operations that do not re-admit `k` from a state with no live
timer for `k` never sends for `k`. -/
theorem run_preserves_noK (k : String) (ops : List Op) :
    ∀ s, noLiveTimerFor s k → sendsFor k s.sends = [] →
      (∀ ft, Op.arrive k ft ∉ ops) →
      sendsFor k (run s ops).sends = [] := by
  induction ops with
  | nil =>
    intro s _ hs _
    exact hs
  | cons op rest ih =>
    intro s h hs hops
    have hop : ∀ ft, op ≠ .arrive k ft := by
      intro ft he
      exact hops ft (by rw [he]; exact List.mem_cons_self _ _)
    obtain ⟨h2, hs2⟩ := step_preserves_noK s k op h hs hop
    exact ih (step s op) h2 hs2 (fun ft hmem => hops ft (List.mem_cons_of_mem _ hmem))

/-- The key is in the set after `addSet`. -/
theorem mem_addSet_self (l : List String) (k : String) : k ∈ addSet l k := by
  unfold addSet
  split
  · assumption
  · simp

/-- Cancelling through `markMessageAsDeleted` leaves no live timer for `k`
when the only live `k`-timer was the pending one. -/
theorem markMessageAsDeleted_noK (s : BridgeState) (k : String)
    (h : onlyPendingTimerFor s k) :
    noLiveTimerFor (markMessageAsDeleted s k) k := by
  unfold markMessageAsDeleted
  split
  case _ tid heq =>
    intro t ht htk
    have ht2 : t ∈ List.filter (fun t => t.1 != tid) s.liveTimers := ht
    have htmem : t ∈ s.liveTimers := List.mem_of_mem_filter ht2
    have hsome := h t htmem htk
    rw [heq] at hsome
    have htid : t.1 = tid := by
      cases hsome
      rfl
    have hne : (t.1 != tid) = true := (List.mem_filter.mp ht2).2
    simp [htid] at hne
  case _ heq =>
    intro t ht htk
    have hsome := h t ht htk
    rw [heq] at hsome
    cases hsome

/-- C2: if `markMessageAsDeleted k` runs while `k`'s only live timer (if any)
is the pending one — in particular strictly before that timer fires — then no
send for `k` ever occurs, through any later operations that do not re-admit
`k`; the cancellation removes the pending entry, clears its timer from the
live set, and records the tombstone; and when no pending delivery exists for
`k` the call only records the tombstone. -/
theorem retract_before_fire_no_sends (s : BridgeState) (k : String)
    (post : List Op)
    (h1 : onlyPendingTimerFor s k)
    (h2 : sendsFor k s.sends = [])
    (h3 : ∀ ft, Op.arrive k ft ∉ post) :
    sendsFor k (run (markMessageAsDeleted s k) post).sends = [] ∧
    mapGet (markMessageAsDeleted s k).pendingMessages k = none ∧
    k ∈ (markMessageAsDeleted s k).deletedMessageIds ∧
    (∀ tid, mapGet s.pendingMessages k = some tid →
      ∀ t ∈ (markMessageAsDeleted s k).liveTimers, t.1 ≠ tid) ∧
    (mapGet s.pendingMessages k = none →
      markMessageAsDeleted s k =
        { s with deletedMessageIds := addSet s.deletedMessageIds k }) := by
  refine ⟨?_, ?_, ?_, ?_, ?_⟩
  · refine run_preserves_noK k post (markMessageAsDeleted s k)
      (markMessageAsDeleted_noK s k h1) ?_ h3
    rw [markMessageAsDeleted_sends]
    exact h2
  · unfold markMessageAsDeleted
    split
    · exact mapGet_mapDelete _ k
    case _ heq => exact heq
  · unfold markMessageAsDeleted
    split
    · exact mem_addSet_self _ k
    · exact mem_addSet_self _ k
  · intro tid htid
    unfold markMessageAsDeleted
    split
    case _ tid2 heq =>
      have he : tid2 = tid := by
        rw [htid] at heq
        cases heq
        rfl
      subst he
      intro t ht
      have ht2 : t ∈ List.filter (fun t => t.1 != tid2) s.liveTimers := ht
      have hne : (t.1 != tid2) = true := (List.mem_filter.mp ht2).2
      simpa using hne
    case _ heq =>
      rw [htid] at heq
      cases heq
  · intro hnone
    unfold markMessageAsDeleted
    split
    case _ tid heq =>
      rw [hnone] at heq
      cases heq
    · rfl

/-- Witness for C2: enqueue a key, retract it before its timer fires, then let
time pass (the cleared timer can no longer fire): no send occurs. -/
theorem retract_before_fire_no_sends_witness :
    sendsFor "a:1" (run (markMessageAsDeleted (run initState [.arrive "a:1" "x"]) "a:1")
      [.fire 0 (.ret true) (.ok 1) (.ok 1)]).sends = [] :=
  (retract_before_fire_no_sends (run initState [.arrive "a:1" "x"]) "a:1"
    [.fire 0 (.ret true) (.ok 1) (.ok 1)]
    (by
      intro t ht htk
      have hl : (run initState [Op.arrive "a:1" "x"]).liveTimers = [(0, "a:1", "x")] := rfl
      rw [hl, List.mem_singleton] at ht
      subst ht
      rfl)
    rfl
    (by intro ft hmem; simp at hmem)).1

/-! ### Bounded sets (C3) -/

/-- Distinct keys of pairwise different lengths, used to overflow the
tombstone set. -/
def xKey (i : Nat) : String := String.mk (List.replicate i 'x')

/-- `xKey` is injective (the underlying character lists have different
lengths). -/
theorem xKey_injective : Function.Injective xKey := by
  intro i j h
  have hl : (xKey i).data.length = (xKey j).data.length := by rw [h]
  simpa [xKey] using hl

/-- Retracting a list of fresh, pairwise-distinct keys while nothing is
pending appends them all to the tombstone set, with no trimming. -/
theorem run_retracts_fresh (l : List String) :
    ∀ s : BridgeState, s.pendingMessages = [] →
      (∀ x ∈ l, x ∉ s.deletedMessageIds) → l.Nodup →
      (run s (l.map Op.retract)).deletedMessageIds = s.deletedMessageIds ++ l := by
  induction l with
  | nil =>
    intro s _ _ _
    simp [run]
  | cons kk rest ih =>
    intro s hp hfresh hnd
    have hkk : kk ∉ s.deletedMessageIds := hfresh kk (List.mem_cons_self kk rest)
    have h1 : markMessageAsDeleted s kk =
        { s with deletedMessageIds := s.deletedMessageIds ++ [kk] } := by
      unfold markMessageAsDeleted
      rw [hp]
      simp [mapGet, addSet, hkk]
    have hstep : run s ((kk :: rest).map Op.retract) =
        run { s with deletedMessageIds := s.deletedMessageIds ++ [kk] }
          (rest.map Op.retract) := by
      show run (step s (Op.retract kk)) (rest.map Op.retract) = _
      rw [show step s (Op.retract kk) = markMessageAsDeleted s kk from rfl, h1]
    rw [hstep, ih]
    · simp
    · exact hp
    · intro x hx
      rw [List.mem_append, List.mem_singleton]
      rintro (hx1 | hx1)
      · exact hfresh x (List.mem_cons_of_mem kk hx) hx1
      · subst hx1
        exact (List.nodup_cons.mp hnd).1 hx
    · exact (List.nodup_cons.mp hnd).2

/-- Counterexample to C3: the claim says the TombstoneSet never exceeds 1000
entries after any sequence of operations and that the bound is re-established
whenever the set is mutated.  But `markMessageAsDeleted` adds tombstones
without trimming (trimming happens only in the delivery-success path), so
1001 distinct retractions with no intervening successful delivery leave 1001
tombstones. -/
theorem tombstone_bound_counterexample :
    1000 < (run initState
      (((List.range 1001).map xKey).map Op.retract)).deletedMessageIds.length := by
  have hnd : ((List.range 1001).map xKey).Nodup :=
    (List.nodup_range 1001).map xKey_injective
  have hfresh : ∀ x ∈ (List.range 1001).map xKey, x ∉ initState.deletedMessageIds := by
    intro x _ hx
    exact List.not_mem_nil x hx
  have h := run_retracts_fresh ((List.range 1001).map xKey) initState rfl hfresh hnd
  rw [h]
  simp [initState]

/-- The trimmed list is a suffix of the original: eviction removes only the
oldest-inserted entries. -/
theorem trimTo_suffix (n : Nat) (l : List String) :
    List.IsSuffix (trimTo n l) l := by
  unfold trimTo
  split
  · exact List.drop_suffix _ _
  · exact List.suffix_refl l

/-- The trimmed list keeps the `n` most recent entries. -/
theorem trimTo_length (n : Nat) (l : List String) :
    (trimTo n l).length = min l.length n := by
  unfold trimTo
  split
  case _ h =>
    rw [List.length_drop]
    omega
  case _ h =>
    omega

/-- Both bounded sets are at or below 1000 entries after the success
continuation. -/
theorem finishSuccess_bounds (s : BridgeState) (key : String) :
    (finishSuccess s key).processedMessageIds.length ≤ 1000 ∧
    (finishSuccess s key).deletedMessageIds.length ≤ 1000 := by
  constructor
  · show (trimTo 1000 (addSet s.processedMessageIds key)).length ≤ 1000
    rw [trimTo_length]
    omega
  · show (trimTo 1000 s.deletedMessageIds).length ≤ 1000
    rw [trimTo_length]
    omega

/-- The send phase keeps the processed set at or below the bound. -/
theorem sendPhase_processed_le (s : BridgeState) (key ft : String)
    (md pl : SendOutcome) (h : s.processedMessageIds.length ≤ 1000) :
    (sendPhase s key ft md pl).processedMessageIds.length ≤ 1000 := by
  cases md with
  | ok mid => exact (finishSuccess_bounds _ key).1
  | err e =>
    simp only [sendPhase]
    by_cases hp : containsSub "parse".data e.message.data = true
    · rw [if_pos hp]
      cases pl with
      | ok mid => exact (finishSuccess_bounds _ key).1
      | err e2 => exact h
    · rw [if_neg hp]
      exact h

/-- The timer callback keeps the processed set at or below the bound. -/
theorem fireBody_processed_le (s : BridgeState) (key ft : String)
    (exq : ExistsOutcome) (md pl : SendOutcome)
    (h : s.processedMessageIds.length ≤ 1000) :
    (fireBody s key ft exq md pl).processedMessageIds.length ≤ 1000 := by
  unfold fireBody
  by_cases hdel : key ∈ s.deletedMessageIds
  · rw [if_pos hdel]
    exact h
  · rw [if_neg hdel]
    have hmk : (markMessageAsDeleted s key).processedMessageIds.length ≤ 1000 := by
      unfold markMessageAsDeleted
      split
      · exact h
      · exact h
    cases exq with
    | ret b =>
      cases b with
      | false => exact hmk
      | true => exact sendPhase_processed_le s key ft md pl h
    | threw e0 => exact sendPhase_processed_le s key ft md pl h

/-- Every step keeps the processed set at or below the bound. -/
theorem step_processed_le (s : BridgeState) (op : Op)
    (h : s.processedMessageIds.length ≤ 1000) :
    (step s op).processedMessageIds.length ≤ 1000 := by
  cases op with
  | arrive key ft =>
    show (handleAdmitted s key ft).processedMessageIds.length ≤ 1000
    unfold handleAdmitted
    split
    · exact h
    · exact h
  | retract key =>
    show (markMessageAsDeleted s key).processedMessageIds.length ≤ 1000
    unfold markMessageAsDeleted
    split
    · exact h
    · exact h
  | fire id exq md pl =>
    show (fireTimer s id exq md pl).processedMessageIds.length ≤ 1000
    unfold fireTimer
    cases hf : s.liveTimers.find? (fun t => t.1 == id) with
    | none => exact h
    | some t =>
      obtain ⟨tid, key, ft⟩ := t
      exact fireBody_processed_le _ key ft exq md pl h

/-- Runs preserve the processed-set bound. -/
theorem run_processed_le (ops : List Op) :
    ∀ s, s.processedMessageIds.length ≤ 1000 →
      (run s ops).processedMessageIds.length ≤ 1000 := by
  induction ops with
  | nil =>
    intro s h
    exact h
  | cons op rest ih =>
    intro s h
    exact ih (step s op) (step_processed_le s op h)

/-- C3 (amended): after any sequence of operations the ProcessedSet holds at
most 1000 entries, and eviction (in `trimTo`, the `slice(-1000)` step) keeps
a suffix of the insertion order — the oldest-inserted entries are removed
first.  The TombstoneSet bound, however, is re-established only by the
delivery-success path (after `finishSuccess` both sets are at or below 1000
and are suffixes of their insertion order), not whenever the set is mutated:
`markMessageAsDeleted` never trims, so the TombstoneSet can exceed 1000
between successful deliveries. -/
theorem bounded_sets_amended :
    (∀ ops, (run initState ops).processedMessageIds.length ≤ 1000) ∧
    (∀ s key, (finishSuccess s key).processedMessageIds.length ≤ 1000 ∧
      (finishSuccess s key).deletedMessageIds.length ≤ 1000 ∧
      List.IsSuffix (finishSuccess s key).processedMessageIds
        (addSet s.processedMessageIds key) ∧
      List.IsSuffix (finishSuccess s key).deletedMessageIds s.deletedMessageIds) ∧
    (∀ n l, List.IsSuffix (trimTo n l) l ∧ (trimTo n l).length = min l.length n) := by
  refine ⟨?_, ?_, ?_⟩
  · intro ops
    exact run_processed_le ops initState (Nat.zero_le 1000)
  · intro s key
    exact ⟨(finishSuccess_bounds s key).1, (finishSuccess_bounds s key).2,
      trimTo_suffix 1000 _, trimTo_suffix 1000 _⟩
  · intro n l
    exact ⟨trimTo_suffix n l, trimTo_length n l⟩

/-! ### Translator segmentation (C6) -/

/-- The segment loop reassembles to the accumulator followed by the rest of
the input. -/
theorem splitGo_join (rest : List Char) :
    ∀ cur b, ((splitGo rest cur b).map Segment.text).flatten = cur ++ rest := by
  induction rest with
  | nil =>
    intro cur b
    simp [splitGo]
  | cons c t ih =>
    intro cur b
    simp only [splitGo]
    by_cases hc : isChineseChar c = b
    · rw [if_pos hc, ih]
      simp
    · rw [if_neg hc]
      simp [ih]

/-- Concatenating the segments of the split reproduces the input exactly. -/
theorem splitIntoSegments_join (t : List Char) :
    ((splitIntoSegments t).map Segment.text).flatten = t := by
  cases t with
  | nil => rfl
  | cons c rest => simpa using splitGo_join rest [c] (isChineseChar c)

/-- Every emitted segment is nonempty and uniformly of its script class. -/
theorem splitGo_uniform (rest : List Char) :
    ∀ cur b, cur ≠ [] → (∀ c ∈ cur, isChineseChar c = b) →
      ∀ seg ∈ splitGo rest cur b,
        seg.text ≠ [] ∧ ∀ c ∈ seg.text, isChineseChar c = seg.isChinese := by
  induction rest with
  | nil =>
    intro cur b hne hall seg hseg
    rw [splitGo, List.mem_singleton] at hseg
    subst hseg
    exact ⟨hne, hall⟩
  | cons c t ih =>
    intro cur b hne hall seg hseg
    simp only [splitGo] at hseg
    by_cases hc : isChineseChar c = b
    · rw [if_pos hc] at hseg
      refine ih (cur ++ [c]) b (by simp) ?_ seg hseg
      intro x hx
      rw [List.mem_append, List.mem_singleton] at hx
      rcases hx with hx | hx
      · exact hall x hx
      · subst hx
        exact hc
    · rw [if_neg hc, List.mem_cons] at hseg
      rcases hseg with hseg | hseg
      · subst hseg
        exact ⟨hne, hall⟩
      · refine ih [c] (isChineseChar c) (by simp) ?_ seg hseg
        intro x hx
        rw [List.mem_singleton] at hx
        subst hx
        rfl

/-- Adjacent segments alternate script class (the runs are maximal), and the
first segment carries the class of the accumulator. -/
theorem splitGo_chain (rest : List Char) :
    ∀ cur b, List.Chain' (fun a c => a.isChinese ≠ c.isChinese) (splitGo rest cur b) ∧
      (splitGo rest cur b).head?.map Segment.isChinese = some b := by
  induction rest with
  | nil =>
    intro cur b
    exact ⟨List.chain'_singleton _, rfl⟩
  | cons c t ih =>
    intro cur b
    simp only [splitGo]
    by_cases hc : isChineseChar c = b
    · rw [if_pos hc]
      exact ih (cur ++ [c]) b
    · rw [if_neg hc]
      obtain ⟨hch, hhd⟩ := ih [c] (isChineseChar c)
      refine ⟨?_, rfl⟩
      rw [List.chain'_cons']
      refine ⟨?_, hch⟩
      intro y hy
      have hyc : y.isChinese = isChineseChar c := by
        cases hhd2 : (splitGo t [c] (isChineseChar c)).head? with
        | none =>
          rw [hhd2] at hy
          cases hy
        | some z =>
          rw [hhd2] at hy hhd
          have hzy : z = y := by
            cases hy
            rfl
          subst hzy
          simpa using hhd
      show b ≠ y.isChinese
      rw [hyc]
      intro hb
      exact hc hb.symm

/-- With a backend that resolves on every chunk, the segment loop returns the
in-order reassembly: source-script runs translated, others verbatim. -/
theorem translateSegs_pure (f : List Char → List Char) (l : List Segment) :
    translateSegs (fun x => .ok (f x)) l =
      .ok ((l.map (fun seg => if seg.isChinese then f seg.text else seg.text)).flatten) := by
  induction l with
  | nil => rfl
  | cons seg rest ih =>
    simp only [translateSegs, ih, List.map_cons, List.flatten_cons]
    by_cases hc : seg.isChinese = true
    · rw [if_pos hc, if_pos hc]
      rfl
    · simp only [Bool.not_eq_true] at hc
      rw [if_neg (by simp [hc]), if_neg (by simp [hc])]
      rfl

/-- Characters of the source script are not JavaScript whitespace. -/
theorem chinese_not_whitespace (c : Char) (h : isChineseChar c = true) :
    isJsWhitespace c = false := by
  simp only [isChineseChar, Bool.or_eq_true, Bool.and_eq_true, decide_eq_true_eq] at h
  simp only [isJsWhitespace]
  apply decide_eq_false
  intro hmem
  simp only [List.mem_cons, List.not_mem_nil, or_false] at hmem
  omega

/-- A list containing a non-whitespace character does not trim to empty. -/
theorem jsTrim_ne_nil_of_mem (t : List Char) (c : Char) (hc : c ∈ t)
    (hw : isJsWhitespace c = false) : jsTrim t ≠ [] := by
  intro h
  unfold jsTrim at h
  rw [List.reverse_eq_nil_iff, List.dropWhile_eq_nil_iff] at h
  have hall : ∀ x ∈ t.dropWhile isJsWhitespace, isJsWhitespace x = true := by
    intro x hx
    exact h x (List.mem_reverse.mpr hx)
  rw [← List.takeWhile_append_dropWhile isJsWhitespace t, List.mem_append] at hc
  rcases hc with hc | hc
  · have := List.mem_takeWhile_imp hc
    rw [hw] at this
    cases this
  · have := hall c hc
    rw [hw] at this
    cases this

/-- C6: `GoogleTranslator.translate` (with the API key set, chunk calls as an
oracle `f`): empty or whitespace-only text is returned unchanged; text with no
source-script character is returned unchanged; otherwise the text is split
into maximal runs (nonempty, uniformly classified, alternating classes, and
concatenating the split reproduces the input exactly), only source-script runs
go through `f`, and the result is the in-order reassembly with non-source runs
verbatim. -/
theorem googleTranslator_segmentation (t : List Char) (f : List Char → List Char) :
    (jsTrim t = [] → googleTranslate true (fun x => .ok (f x)) t = .ok t) ∧
    (containsChinese t = false → googleTranslate true (fun x => .ok (f x)) t = .ok t) ∧
    ((splitIntoSegments t).map Segment.text).flatten = t ∧
    (∀ seg ∈ splitIntoSegments t,
      seg.text ≠ [] ∧ ∀ c ∈ seg.text, isChineseChar c = seg.isChinese) ∧
    List.Chain' (fun a b => a.isChinese ≠ b.isChinese) (splitIntoSegments t) ∧
    (containsChinese t = true →
      googleTranslate true (fun x => .ok (f x)) t =
        .ok (((splitIntoSegments t).map
          (fun seg => if seg.isChinese then f seg.text else seg.text)).flatten)) := by
  refine ⟨?_, ?_, splitIntoSegments_join t, ?_, ?_, ?_⟩
  · intro h
    simp [googleTranslate, h]
  · intro h
    by_cases he : (jsTrim t).isEmpty = true
    · simp [googleTranslate, he]
    · simp [googleTranslate, he, h]
  · intro seg hseg
    cases t with
    | nil => exact absurd hseg (List.not_mem_nil seg)
    | cons c rest =>
      refine splitGo_uniform rest [c] (isChineseChar c) (by simp) ?_ seg hseg
      intro x hx
      rw [List.mem_singleton] at hx
      subst hx
      rfl
  · cases t with
    | nil => exact List.chain'_nil
    | cons c rest => exact (splitGo_chain rest [c] (isChineseChar c)).1
  · intro h
    have hch : ∃ c ∈ t, isChineseChar c = true := by
      simpa [containsChinese, List.any_eq_true] using h
    obtain ⟨c, hc, hcc⟩ := hch
    have hne : jsTrim t ≠ [] := jsTrim_ne_nil_of_mem t c hc (chinese_not_whitespace c hcc)
    have hemp : (jsTrim t).isEmpty = false := by
      simpa using hne
    simp only [googleTranslate, hemp, h, translateSegs_pure, Bool.not_true,
      Bool.false_eq_true, if_false]
    rfl

/-- Witness for C6 on mixed-script text: with a chunk oracle that doubles its
input, `"a你b"` becomes `"a你你b"` — the Chinese run is translated, the Latin
runs pass through in place. -/
theorem googleTranslator_segmentation_witness :
    googleTranslate true (fun x => .ok (x ++ x)) "a你b".data =
      .ok ((((splitIntoSegments "a你b".data)).map
        (fun seg => if seg.isChinese then seg.text ++ seg.text else seg.text)).flatten) :=
  (googleTranslator_segmentation "a你b".data (fun x => x ++ x)).2.2.2.2.2 (by decide)

end TelegramBridge
